import Mathlib

/-!
Verification of the row-by-row data extractor (`scripts/data-extractor/main.py`).

The script drives synthetic input, reads the clipboard once per iteration,
splits the copied text on tab characters into up to three named fields,
collects the records, and finally serializes them to `extracted_data.json`
(UTF-8, `ensure_ascii=False`, two-space indentation).

The embedding below mirrors the source:
* `pyStrip`, `pySplit` model Python's `str.strip()` and `str.split('\t')`;
* `buildRow` models the record construction of one loop iteration;
* `runLoop` models the `for i in range(num_rows)` loop, producing both the
  collected records and the trace of simulated-input events;
* `pyInt` models `int(input(...))` and `program` the whole run including the
  early return on a parse failure;
* `Json`, `renderVal`, `parseVal`, `encodeRow`, `decodeRow` model the
  `json.dump(..., ensure_ascii=False, indent=2)` output and its re-parsing.
-/

namespace DataExtractor

/-- Characters stripped by Python's `str.strip()` (`str.isspace()` set). -/
def isPySpace (c : Char) : Bool :=
  let n := c.toNat
  n == 32 || n == 9 || n == 10 || n == 13 || n == 11 || n == 12 ||
  (decide (28 ≤ n) && decide (n ≤ 31)) || n == 0x85 || n == 0xa0 ||
  n == 0x1680 || (decide (0x2000 ≤ n) && decide (n ≤ 0x200a)) ||
  n == 0x2028 || n == 0x2029 || n == 0x202f || n == 0x205f || n == 0x3000

/-- Python `s.strip()`: drop leading and trailing whitespace. -/
def pyStrip (s : String) : String :=
  String.mk (((s.data.dropWhile isPySpace).reverse.dropWhile isPySpace).reverse)

/-- Python `s.split(sep)` for a one-character separator: no collapsing of
adjacent separators, and the empty string yields `[""]`. -/
def pySplit (sep : Char) : List Char → List (List Char)
  | [] => [[]]
  | c :: rest =>
    if c = sep then [] :: pySplit sep rest
    else
      match pySplit sep rest with
      | [] => [[c]]
      | g :: gs => (c :: g) :: gs

/-- `copied_text.split('\t')` from the script. -/
def columnsOf (copied_text : String) : List String :=
  (pySplit '\t' copied_text.data).map String.mk

/-- The record built for one captured row (`row_data` in the script).
`english_name`, `arabic_name` and `id` are present only when the
corresponding tab-separated column exists. -/
structure ExtractedRow where
  row_number : Nat
  raw_content : String
  english_name : Option String
  arabic_name : Option String
  id : Option String
deriving DecidableEq, Repr

/-- Building `row_data` for loop index `i` (0-based, as in `range`):
`row_number = i + 1`, `raw_content` is the verbatim clipboard text, and
column `k` is stored stripped whenever `len(columns) >= k + 1`. -/
def buildRow (i : Nat) (copied_text : String) : ExtractedRow :=
  let columns := columnsOf copied_text
  { row_number := i + 1
  , raw_content := copied_text
  , english_name := (columns.get? 0).map pyStrip
  , arabic_name := (columns.get? 1).map pyStrip
  , id := (columns.get? 2).map pyStrip }

/-- Simulated-input events issued by the script. -/
inductive Event where
  | click
  | copyHotkey
  | pressDown
deriving DecidableEq, Repr

/-- Events of loop iteration `i`: the copy hotkey, then a down-arrow press
unless this is the final iteration (`if i < num_rows - 1` in the script).
The clipboard content never influences these events. -/
def iterationEvents (num_rows i : Nat) : List Event :=
  Event.copyHotkey :: (if i < num_rows - 1 then [Event.pressDown] else [])

/-- One iteration of the loop body acting on the accumulated state:
append a record exactly when the clipboard text is non-empty
(`if copied_text:`), and emit the iteration's events. -/
def loopStep (clipboard : Nat → String) (num_rows : Nat)
    (st : List ExtractedRow × List Event) (i : Nat) :
    List ExtractedRow × List Event :=
  let copied_text := clipboard i
  ((if copied_text = "" then st.1 else st.1 ++ [buildRow i copied_text]),
   st.2 ++ iterationEvents num_rows i)

/-- The `for i in range(num_rows)` loop: collected records and event trace.
`clipboard i` is what `pyperclip.paste()` returns during iteration `i`. -/
def runLoop (clipboard : Nat → String) (num_rows : Nat) :
    List ExtractedRow × List Event :=
  (List.range num_rows).foldl (loopStep clipboard num_rows) ([], [])

/-- The records collected by a full, uninterrupted loop. -/
def extractLoop (clipboard : Nat → String) (num_rows : Nat) : List ExtractedRow :=
  (runLoop clipboard num_rows).1

/-- The simulated-input events of a full, uninterrupted loop. -/
def loopEvents (clipboard : Nat → String) (num_rows : Nat) : List Event :=
  (runLoop clipboard num_rows).2

/-- Python `int(s)`: optional surrounding whitespace, optional sign, at
least one decimal digit. Returns `none` when `int` would raise
`ValueError`, which makes the script print a message and return. -/
def pyInt (s : String) : Option Int :=
  let t := (pyStrip s).data
  let core : Option (Int × List Char) :=
    match t with
    | '-' :: rest => some (-1, rest)
    | '+' :: rest => some (1, rest)
    | cs => some (1, cs)
  match core with
  | some (sign, ds) =>
    if ds ≠ [] ∧ ds.all Char.isDigit then
      some (sign * (ds.foldl (fun a c => 10 * a + (c.toNat - 48)) 0 : Nat))
    else none
  | none => none

/-! ## JSON values produced by `json.dump`

The script serializes a list of dicts whose values are ints and strings, so
the JSON value grammar needed is numbers, strings, arrays and objects. -/

inductive Json where
  | num : Nat → Json
  | str : String → Json
  | arr : List Json → Json
  | obj : List (String × Json) → Json
deriving Repr

/-- The JSON object written for one record: keys in Python dict insertion
order, optional keys present exactly when the field was set. -/
def encodeRow (r : ExtractedRow) : Json :=
  Json.obj
    ([("row_number", Json.num r.row_number), ("raw_content", Json.str r.raw_content)]
      ++ (match r.english_name with
          | some s => [("english_name", Json.str s)]
          | none => [])
      ++ (match r.arabic_name with
          | some s => [("arabic_name", Json.str s)]
          | none => [])
      ++ (match r.id with
          | some s => [("id", Json.str s)]
          | none => []))

/-- The JSON array written for the whole `extracted_data` list. -/
def encodeRecords (rs : List ExtractedRow) : Json :=
  Json.arr (rs.map encodeRow)

/-- Read a mandatory numeric key. -/
def asNum : Option Json → Option Nat
  | some (Json.num n) => some n
  | _ => none

/-- Read a mandatory string key. -/
def asStr : Option Json → Option String
  | some (Json.str s) => some s
  | _ => none

/-- Read an optional string key: a missing key is `none`. -/
def asOptStr : Option Json → Option (Option String)
  | none => some none
  | some (Json.str s) => some (some s)
  | some _ => none

/-- Recover an `ExtractedRow` from its JSON object. -/
def decodeRow : Json → Option ExtractedRow
  | Json.obj fields => do
    let n ← asNum (fields.lookup "row_number")
    let raw ← asStr (fields.lookup "raw_content")
    let en ← asOptStr (fields.lookup "english_name")
    let ar ← asOptStr (fields.lookup "arabic_name")
    let idv ← asOptStr (fields.lookup "id")
    some ⟨n, raw, en, ar, idv⟩
  | _ => none

/-- Decode each element of a JSON array. -/
def decodeList : List Json → Option (List ExtractedRow)
  | [] => some []
  | v :: vs =>
    match decodeRow v, decodeList vs with
    | some r, some rs => some (r :: rs)
    | _, _ => none

/-- Recover the record list from the JSON array. -/
def decodeRecords : Json → Option (List ExtractedRow)
  | Json.arr vs => decodeList vs
  | _ => none

/-! ## Rendering (`json.dump(..., ensure_ascii=False, indent=2)`) -/

/-- Lowercase hex digit. -/
def hexDigitChar (n : Nat) : Char :=
  if n < 10 then Char.ofNat (48 + n) else Char.ofNat (87 + n)

/-- How `json.dump` with `ensure_ascii=False` writes one character inside a
string literal: only the quote, the backslash and control characters are
escaped; everything else (in particular all non-ASCII text) is verbatim. -/
def escapeChar (c : Char) : List Char :=
  if c = '\x22' then ['\x5c', '\x22']
  else if c = '\x5c' then ['\x5c', '\x5c']
  else if c = '\n' then ['\x5c', 'n']
  else if c = '\t' then ['\x5c', 't']
  else if c = '\r' then ['\x5c', 'r']
  else if c = '\x08' then ['\x5c', 'b']
  else if c = '\x0c' then ['\x5c', 'f']
  else if c.toNat < 32 then
    ['\x5c', 'u', '0', '0', hexDigitChar (c.toNat / 16), hexDigitChar (c.toNat % 16)]
  else [c]

/-- Escape a whole string body. -/
def escapeList (cs : List Char) : List Char := (cs.map escapeChar).flatten

/-- A JSON string literal. -/
def renderString (s : String) : List Char :=
  '\x22' :: (escapeList s.data ++ ['\x22'])

/-- Decimal digit character. -/
def digitChar (d : Nat) : Char := Char.ofNat (48 + d)

/-- Little-endian decimal digits of `n`, with enough fuel. -/
def natDigitsAux : Nat → Nat → List Char
  | 0, _ => []
  | _ + 1, 0 => []
  | fuel + 1, n + 1 => digitChar ((n + 1) % 10) :: natDigitsAux fuel ((n + 1) / 10)

/-- Decimal rendering of a natural number. -/
def renderNat (n : Nat) : List Char :=
  if n = 0 then ['0'] else (natDigitsAux n n).reverse

/-- `indent` spaces. -/
def nspaces (n : Nat) : List Char := List.replicate n ' '

mutual
/-- Pretty-printing with two-space indentation at nesting depth `level`,
exactly as `json.dump(..., indent=2)` lays the document out. -/
def renderVal : Nat → Json → List Char
  | _, .num n => renderNat n
  | _, .str s => renderString s
  | _, .arr [] => ['[', ']']
  | level, .arr (v :: vs) =>
    '[' :: '\n' :: (nspaces (2 * (level + 1)) ++ renderVal (level + 1) v
      ++ renderArrTail (level + 1) vs ++ '\n' :: (nspaces (2 * level) ++ [']']))
  | _, .obj [] => ['\x7b', '\x7d']
  | level, .obj (m :: ms) =>
    '\x7b' :: '\n' :: (nspaces (2 * (level + 1)) ++ renderMember (level + 1) m
      ++ renderObjTail (level + 1) ms ++ '\n' :: (nspaces (2 * level) ++ ['\x7d']))

/-- Remaining array items, each preceded by a comma, newline and indent. -/
def renderArrTail : Nat → List Json → List Char
  | _, [] => []
  | level, v :: vs =>
    ',' :: '\n' :: (nspaces (2 * level) ++ renderVal level v ++ renderArrTail level vs)

/-- One `"key": value` member. -/
def renderMember : Nat → String × Json → List Char
  | level, (k, v) => renderString k ++ ':' :: ' ' :: renderVal level v

/-- Remaining object members. -/
def renderObjTail : Nat → List (String × Json) → List Char
  | _, [] => []
  | level, m :: ms =>
    ',' :: '\n' :: (nspaces (2 * level) ++ renderMember level m ++ renderObjTail level ms)
end

/-- The text written to `extracted_data.json`. -/
def renderJson (v : Json) : String := String.mk (renderVal 0 v)

/-! ## Parsing the written file back -/

/-- JSON insignificant whitespace. -/
def isJsonWs (c : Char) : Bool := c == ' ' || c == '\n' || c == '\t' || c == '\r'

/-- Skip insignificant whitespace. -/
def skipWs : List Char → List Char
  | [] => []
  | c :: rest => if isJsonWs c then skipWs rest else c :: rest

/-- Value of one hex digit. -/
def hexVal (c : Char) : Option Nat :=
  if decide (48 ≤ c.toNat) ∧ decide (c.toNat ≤ 57) then some (c.toNat - 48)
  else if decide (97 ≤ c.toNat) ∧ decide (c.toNat ≤ 102) then some (c.toNat - 87)
  else if decide (65 ≤ c.toNat) ∧ decide (c.toNat ≤ 70) then some (c.toNat - 55)
  else none

/-- Parse the body of a string literal after the opening quote, returning
the decoded characters and the input after the closing quote. -/
def parseStringBody : List Char → Option (List Char × List Char)
  | [] => none
  | c :: rest =>
    if c = '\x22' then some ([], rest)
    else if c = '\x5c' then
      match rest with
      | [] => none
      | e :: rest2 =>
        if e = '\x22' then (parseStringBody rest2).map (fun p => ('\x22' :: p.1, p.2))
        else if e = '\x5c' then (parseStringBody rest2).map (fun p => ('\x5c' :: p.1, p.2))
        else if e = '/' then (parseStringBody rest2).map (fun p => ('/' :: p.1, p.2))
        else if e = 'n' then (parseStringBody rest2).map (fun p => ('\n' :: p.1, p.2))
        else if e = 't' then (parseStringBody rest2).map (fun p => ('\t' :: p.1, p.2))
        else if e = 'r' then (parseStringBody rest2).map (fun p => ('\r' :: p.1, p.2))
        else if e = 'b' then (parseStringBody rest2).map (fun p => ('\x08' :: p.1, p.2))
        else if e = 'f' then (parseStringBody rest2).map (fun p => ('\x0c' :: p.1, p.2))
        else if e = 'u' then
          match rest2 with
          | h1 :: h2 :: h3 :: h4 :: rest3 =>
            match hexVal h1, hexVal h2, hexVal h3, hexVal h4 with
            | some a, some b, some c2, some d =>
              (parseStringBody rest3).map
                (fun p => (Char.ofNat (((a * 16 + b) * 16 + c2) * 16 + d) :: p.1, p.2))
            | _, _, _, _ => none
          | _ => none
        else none
    else (parseStringBody rest).map (fun p => (c :: p.1, p.2))

/-- Big-endian digit-list value. -/
def digitsVal (cs : List Char) : Nat := cs.foldl (fun a c => 10 * a + (c.toNat - 48)) 0

/-- Parse a (non-negative) number: one or more leading decimal digits. -/
def parseNat (cs : List Char) : Option (Nat × List Char) :=
  let ds := cs.takeWhile Char.isDigit
  if ds.isEmpty then none else some (digitsVal ds, cs.dropWhile Char.isDigit)

mutual
/-- Parse one JSON value after skipping whitespace.  The fuel argument
strictly decreases on every recursive call; it only bounds nesting, never
changes the result when large enough. -/
def parseVal : Nat → List Char → Option (Json × List Char)
  | 0, _ => none
  | fuel + 1, cs =>
    match skipWs cs with
    | [] => none
    | c :: rest =>
      if c = '\x22' then
        (parseStringBody rest).map (fun p => (Json.str (String.mk p.1), p.2))
      else if c = '[' then
        if (skipWs rest).head? = some ']' then some (Json.arr [], (skipWs rest).tail)
        else
          match parseVal fuel rest with
          | none => none
          | some (v, rest2) =>
            match parseArrTail fuel rest2 with
            | none => none
            | some (vs, rest3) => some (Json.arr (v :: vs), rest3)
      else if c = '\x7b' then
        if (skipWs rest).head? = some '\x7d' then some (Json.obj [], (skipWs rest).tail)
        else
          match parseMember fuel rest with
          | none => none
          | some (m, rest2) =>
            match parseObjTail fuel rest2 with
            | none => none
            | some (ms, rest3) => some (Json.obj (m :: ms), rest3)
      else
        (parseNat (c :: rest)).map (fun p => (Json.num p.1, p.2))

/-- After an array item: either the closing bracket or a comma and another
item. -/
def parseArrTail : Nat → List Char → Option (List Json × List Char)
  | 0, _ => none
  | fuel + 1, cs =>
    match skipWs cs with
    | [] => none
    | c :: rest =>
      if c = ']' then some ([], rest)
      else if c = ',' then
        match parseVal fuel rest with
        | none => none
        | some (v, rest2) =>
          match parseArrTail fuel rest2 with
          | none => none
          | some (vs, rest3) => some (v :: vs, rest3)
      else none

/-- One `"key": value` member. -/
def parseMember : Nat → List Char → Option ((String × Json) × List Char)
  | 0, _ => none
  | fuel + 1, cs =>
    match skipWs cs with
    | [] => none
    | c :: rest =>
      if c = '\x22' then
        match parseStringBody rest with
        | none => none
        | some (k, rest2) =>
          if (skipWs rest2).head? = some ':' then
            match parseVal fuel (skipWs rest2).tail with
            | none => none
            | some (v, rest4) => some ((String.mk k, v), rest4)
          else none
      else none

/-- After an object member: either the closing brace or a comma and another
member. -/
def parseObjTail : Nat → List Char → Option (List (String × Json) × List Char)
  | 0, _ => none
  | fuel + 1, cs =>
    match skipWs cs with
    | [] => none
    | c :: rest =>
      if c = '\x7d' then some ([], rest)
      else if c = ',' then
        match parseMember fuel rest with
        | none => none
        | some (m, rest2) =>
          match parseObjTail fuel rest2 with
          | none => none
          | some (ms, rest3) => some (m :: ms, rest3)
      else none
end

/-- Parse a whole document: one value, then only trailing whitespace. -/
def parseJson (s : String) : Option Json :=
  match parseVal (s.data.length + 1) s.data with
  | some (v, rest) => if skipWs rest = [] then some v else none
  | none => none

/-! ## The whole program run -/

/-- Observable outcome of one run of `main`. -/
structure RunResult where
  records : List ExtractedRow
  events : List Event
  clipboardReads : Nat
  outputFile : Option String
deriving Repr

/-- The run of `main` after the two prompts: parse the row count with
`int(...)`; on failure print and return before any automation or file
output; otherwise click once to focus, run the loop (`range` of a negative
count is empty), and always write the JSON dump of the collected records. -/
def program (rowCountInput : String) (clipboard : Nat → String) : RunResult :=
  match pyInt rowCountInput with
  | none => { records := [], events := [], clipboardReads := 0, outputFile := none }
  | some n =>
    let rows := n.toNat
    let (recs, tr) := runLoop clipboard rows
    { records := recs
    , events := Event.click :: tr
    , clipboardReads := rows
    , outputFile := some (renderJson (encodeRecords recs)) }

/-- Records collected when `KeyboardInterrupt` arrives after `k` completed
iterations (no interrupt arrives when `k ≥ num_rows`).  The `try/except`
around the loop turns the interrupt into normal fall-through to the save. -/
def recordsAtInterrupt (clipboard : Nat → String) (num_rows k : Nat) :
    List ExtractedRow :=
  extractLoop clipboard (min k num_rows)

/-- The file content written after such an interrupted run: the save is
outside the `try`, so it always executes. -/
def fileAtInterrupt (clipboard : Nat → String) (num_rows k : Nat) : String :=
  renderJson (encodeRecords (recordsAtInterrupt clipboard num_rows k))

/-! ## Closed form of the loop -/

/-- The optional record produced by iteration `i`. -/
def rowAt (clipboard : Nat → String) (i : Nat) : Option ExtractedRow :=
  if clipboard i = "" then none else some (buildRow i (clipboard i))

lemma loopStep_foldl (c : Nat → String) (m : Nat) (l : List Nat)
    (recs : List ExtractedRow) (evs : List Event) :
    l.foldl (loopStep c m) (recs, evs) =
      (recs ++ l.filterMap (rowAt c), evs ++ (l.map (iterationEvents m)).flatten) := by
  induction l generalizing recs evs with
  | nil => simp
  | cons i l ih =>
    by_cases h : c i = "" <;>
      simp [loopStep, rowAt, h, ih, List.filterMap_cons]

lemma runLoop_eq (c : Nat → String) (n : Nat) :
    runLoop c n =
      ((List.range n).filterMap (rowAt c),
       ((List.range n).map (iterationEvents n)).flatten) := by
  simpa [runLoop] using loopStep_foldl c n (List.range n) [] []

lemma extractLoop_eq (c : Nat → String) (n : Nat) :
    extractLoop c n = (List.range n).filterMap (rowAt c) := by
  simp [extractLoop, runLoop_eq]

lemma loopEvents_eq (c : Nat → String) (n : Nat) :
    loopEvents c n = ((List.range n).map (iterationEvents n)).flatten := by
  simp [loopEvents, runLoop_eq]

lemma pySplit_ne_nil (sep : Char) (cs : List Char) : pySplit sep cs ≠ [] := by
  induction cs with
  | nil => simp [pySplit]
  | cons c rest ih =>
    by_cases hc : c = sep
    · simp [pySplit, hc]
    · cases h : pySplit sep rest with
      | nil => simp [pySplit, hc, h]
      | cons g gs => simp [pySplit, hc, h]

lemma columnsOf_ne_nil (t : String) : columnsOf t ≠ [] := by
  simp [columnsOf, pySplit_ne_nil]

lemma buildRow_english_isSome (i : Nat) (t : String) :
    (buildRow i t).english_name.isSome = true := by
  cases h : columnsOf t with
  | nil => exact absurd h (columnsOf_ne_nil t)
  | cons a l => simp [buildRow, h]

lemma filterMap_ite_eq {α : Type} (p : Nat → Bool) (g : Nat → α) (l : List Nat) :
    l.filterMap (fun i => if p i then some (g i) else none) = (l.filter p).map g := by
  induction l with
  | nil => rfl
  | cons a l ih => by_cases h : p a <;> simp [h, ih]

lemma map_rowNumber (c : Nat → String) (n : Nat) :
    (extractLoop c n).map ExtractedRow.row_number =
      ((List.range n).filter (fun i => decide (c i ≠ ""))).map (· + 1) := by
  rw [extractLoop_eq, List.map_filterMap, ← filterMap_ite_eq]
  congr 1
  funext i
  by_cases h : c i = "" <;> simp [rowAt, h, buildRow]

lemma extractLoop_const (s : String) (hs : s ≠ "") (N : Nat) :
    extractLoop (fun _ => s) N = (List.range N).map (fun i => buildRow i s) := by
  rw [extractLoop_eq]
  rw [show rowAt (fun _ => s) = some ∘ (fun i => buildRow i s) by
    funext i; simp [rowAt, hs]]
  rw [List.filterMap_eq_map]

/-! ## The claims -/

/-- C1: if the clipboard read of every iteration returns the same fixed
non-empty string, the loop over `N` rows yields exactly `N` records, and the
record of iteration `i` (1-based) has `row_number = i`. -/
theorem const_clipboard_yields_n_records (s : String) (N : Nat) (hs : s ≠ "") :
    (extractLoop (fun _ => s) N).length = N ∧
    ∀ (i : Nat) (r : ExtractedRow),
      (extractLoop (fun _ => s) N)[i]? = some r → r.row_number = i + 1 := by
  have hmap := extractLoop_const s hs N
  refine ⟨by simp [hmap], ?_⟩
  intro i r h
  rw [hmap, List.getElem?_map] at h
  rcases Option.map_eq_some'.1 h with ⟨j, hj, rfl⟩
  have hi : i < N := by
    by_contra hlt
    rw [List.getElem?_eq_none (by simpa using Nat.le_of_not_lt hlt)] at hj
    exact Option.noConfusion hj
  rw [List.getElem?_range hi] at hj
  cases hj
  simp [buildRow]

/-- Witness for C1 at `s = "a\tb"`, `N = 3`. -/
theorem const_clipboard_yields_n_records_witness :
    (extractLoop (fun _ => "a\tb") 3).length = 3 ∧
    (extractLoop (fun _ => "a\tb") 3)[1]? = some (buildRow 1 "a\tb") ∧
    (buildRow 1 "a\tb").row_number = 2 := by
  refine ⟨(const_clipboard_yields_n_records "a\tb" 3 (by decide)).1, by decide, ?_⟩
  exact (const_clipboard_yields_n_records "a\tb" 3 (by decide)).2 1 _ (by decide)

/-- C2: the clipboard text `"Cat\tقطة\t001"` yields the record with
`english_name="Cat"`, `arabic_name="قطة"`, `id="001"` and untrimmed
`raw_content`; in general every named field is the stripped tab-separated
segment while `raw_content` is the verbatim clipboard text. -/
theorem tab_split_fields (i : Nat) :
    buildRow i "Cat\tقطة\t001" =
      { row_number := i + 1, raw_content := "Cat\tقطة\t001",
        english_name := some "Cat", arabic_name := some "قطة",
        id := some "001" } ∧
    ∀ t : String,
      (buildRow i t).raw_content = t ∧
      (buildRow i t).english_name = ((columnsOf t).get? 0).map pyStrip ∧
      (buildRow i t).arabic_name = ((columnsOf t).get? 1).map pyStrip ∧
      (buildRow i t).id = ((columnsOf t).get? 2).map pyStrip :=
  ⟨rfl, fun _ => ⟨rfl, rfl, rfl, rfl⟩⟩

/-- C3: a single-field clipboard text yields a record with only
`english_name` set, and generally the fields beyond the number of
tab-separated segments are absent (no error on short rows). -/
theorem short_rows_degrade_gracefully (i : Nat) :
    buildRow i "SoloWord" =
      { row_number := i + 1, raw_content := "SoloWord",
        english_name := some "SoloWord", arabic_name := none, id := none } ∧
    ∀ t : String,
      ((columnsOf t).length ≤ 1 → (buildRow i t).arabic_name = none) ∧
      ((columnsOf t).length ≤ 2 → (buildRow i t).id = none) := by
  refine ⟨rfl, fun t => ⟨fun h => ?_, fun h => ?_⟩⟩
  · simpa [buildRow] using h
  · simpa [buildRow] using h

/-- Witness for C3 at `i = 0`, `t = "SoloWord"`. -/
theorem short_rows_degrade_gracefully_witness :
    buildRow 0 "SoloWord" =
      { row_number := 1, raw_content := "SoloWord",
        english_name := some "SoloWord", arabic_name := none, id := none } ∧
    (buildRow 0 "SoloWord").arabic_name = none ∧
    (buildRow 0 "SoloWord").id = none :=
  ⟨(short_rows_degrade_gracefully 0).1,
   ((short_rows_degrade_gracefully 0).2 "SoloWord").1 (by decide),
   ((short_rows_degrade_gracefully 0).2 "SoloWord").2 (by decide)⟩

/-- C4: an empty clipboard read appends no record while the loop continues;
with `N = 5` and an empty clipboard only on iteration 3, the output has
exactly the 4 records numbered 1, 2, 4, 5 (`row_number` is the iteration
index, not the output position). -/
theorem empty_clipboard_skips_iteration (s : String) (hs : s ≠ "") :
    (extractLoop (fun i => if i = 2 then "" else s) 5).map ExtractedRow.row_number
      = [1, 2, 4, 5] ∧
    ∀ (c : Nat → String) (n : Nat),
      (extractLoop c n).map ExtractedRow.row_number =
        ((List.range n).filter (fun i => decide (c i ≠ ""))).map (· + 1) := by
  refine ⟨?_, map_rowNumber⟩
  rw [map_rowNumber]
  have h5 : List.range 5 = [0, 1, 2, 3, 4] := by decide
  rw [h5]
  simp [List.filter, hs]

/-- Witness for C4 at `s = "x"`. -/
theorem empty_clipboard_skips_iteration_witness :
    (extractLoop (fun i => if i = 2 then "" else "x") 5).map ExtractedRow.row_number
      = [1, 2, 4, 5] :=
  (empty_clipboard_skips_iteration "x" (by decide)).1

/-- C6: when the row-count input does not parse as an integer, the program
performs no simulated input, reads no clipboard, and writes no output file. -/
theorem invalid_rowcount_aborts (inp : String) (c : Nat → String)
    (h : pyInt inp = none) :
    program inp c =
      { records := [], events := [], clipboardReads := 0, outputFile := none } := by
  simp [program, h]

/-- Witness for C6 at input `"abc"`. -/
theorem invalid_rowcount_aborts_witness :
    program "abc" (fun _ => "x") =
      { records := [], events := [], clipboardReads := 0, outputFile := none } :=
  invalid_rowcount_aborts "abc" (fun _ => "x") (by decide)

/-- C7: the event trace decomposes into per-iteration blocks, and for every
clipboard source the block of iteration `i` holds exactly one down-arrow
press unless `i` is the final iteration, in which case it holds none. -/
theorem down_press_every_nonfinal_iteration (c : Nat → String) (n i : Nat)
    (h : i < n) :
    loopEvents c n = ((List.range n).map (iterationEvents n)).flatten ∧
    (iterationEvents n i).count Event.pressDown = (if i + 1 < n then 1 else 0) := by
  refine ⟨loopEvents_eq c n, ?_⟩
  by_cases h2 : i < n - 1
  · rw [if_pos (by omega)]
    simp [iterationEvents, h2]
  · rw [if_neg (by omega)]
    simp [iterationEvents, h2]

/-- Witness for C7: two iterations, one down press on the first iteration
and none on the second (final) one. -/
theorem down_press_every_nonfinal_iteration_witness :
    (iterationEvents 2 0).count Event.pressDown = 1 ∧
    (iterationEvents 2 1).count Event.pressDown = 0 :=
  ⟨((down_press_every_nonfinal_iteration (fun _ => "x") 2 0 (by decide)).2).trans
      (by decide),
   ((down_press_every_nonfinal_iteration (fun _ => "x") 2 1 (by decide)).2).trans
      (by decide)⟩

/-- C9: invariant of the collected sequence: the `row_number` values are
strictly increasing (each appended record's number exceeds every earlier
one). -/
theorem rowNumbers_strictly_increasing (c : Nat → String) (n : Nat) :
    ((extractLoop c n).map ExtractedRow.row_number).Pairwise (· < ·) := by
  rw [extractLoop_eq, List.map_filterMap, List.pairwise_filterMap]
  refine (List.pairwise_lt_range n).imp ?_
  intro i j hij x hx y hy
  by_cases hi : c i = "" <;> by_cases hj : c j = "" <;>
    simp [rowAt, hi, hj, buildRow] at hx hy
  subst hx; subst hy; omega

/-- C10: every record in the output has non-empty `raw_content` and a
present `english_name` field; yet `english_name` can be the empty string
when the first segment strips to nothing. -/
theorem records_nonempty_raw_and_english (c : Nat → String) (n : Nat) :
    (∀ r ∈ extractLoop c n, r.raw_content ≠ "" ∧ r.english_name.isSome = true) ∧
    extractLoop (fun _ => " ") 1 =
      [{ row_number := 1, raw_content := " ", english_name := some "",
         arabic_name := none, id := none }] := by
  refine ⟨?_, by decide⟩
  intro r hr
  rw [extractLoop_eq] at hr
  rcases List.mem_filterMap.1 hr with ⟨i, _, hf⟩
  by_cases hi : c i = "" <;> simp [rowAt, hi] at hf
  subst hf
  exact ⟨hi, buildRow_english_isSome i (c i)⟩

/-- Witness for C10: the non-empty-clipboard record of a singleton run. -/
theorem records_nonempty_raw_and_english_witness :
    (buildRow 0 " ").raw_content ≠ "" ∧
    (buildRow 0 " ").english_name.isSome = true :=
  (records_nonempty_raw_and_english (fun _ => " ") 1).1 (buildRow 0 " ")
    (by decide)

/-! ## Round-trip of the string-literal layer -/

lemma hexVal_hexDigitChar (n : Nat) (h : n < 16) :
    hexVal (hexDigitChar n) = some n := by
  have : ∀ m : Fin 16, hexVal (hexDigitChar m.val) = some m.val := by decide
  exact this ⟨n, h⟩

lemma parseStringBody_escapeChar (c : Char) (tail : List Char) :
    parseStringBody (escapeChar c ++ tail) =
      (parseStringBody tail).map (fun p => (c :: p.1, p.2)) := by
  unfold escapeChar
  split_ifs with h1 h2 h3 h4 h5 h6 h7 h8
  · subst h1; conv_lhs => rw [parseStringBody.eq_def]
    simp
  · subst h2; conv_lhs => rw [parseStringBody.eq_def]
    simp
  · subst h3; conv_lhs => rw [parseStringBody.eq_def]
    simp
  · subst h4; conv_lhs => rw [parseStringBody.eq_def]
    simp
  · subst h5; conv_lhs => rw [parseStringBody.eq_def]
    simp
  · subst h6; conv_lhs => rw [parseStringBody.eq_def]
    simp
  · subst h7; conv_lhs => rw [parseStringBody.eq_def]
    simp
  · have hdiv : hexVal (hexDigitChar (c.toNat / 16)) = some (c.toNat / 16) :=
      hexVal_hexDigitChar _ (by omega)
    have hmod : hexVal (hexDigitChar (c.toNat % 16)) = some (c.toNat % 16) :=
      hexVal_hexDigitChar _ (by omega)
    have h0 : hexVal '0' = some 0 := rfl
    conv_lhs => rw [parseStringBody.eq_def]
    simp [h0, hdiv, hmod]
    have hc : (c.toNat / 16) * 16 + c.toNat % 16 = c.toNat := by omega
    rw [hc, Char.ofNat_toNat]
  · show parseStringBody (c :: tail) = _
    conv_lhs => rw [parseStringBody.eq_def]
    simp only [if_neg h1, if_neg h2]

lemma parseStringBody_escapeList (cs tail : List Char) :
    parseStringBody (escapeList cs ++ '\x22' :: tail) = some (cs, tail) := by
  induction cs with
  | nil =>
    show parseStringBody (escapeList [] ++ '\x22' :: tail) = some ([], tail)
    have h0 : escapeList [] = [] := rfl
    rw [h0, List.nil_append]
    conv_lhs => rw [parseStringBody.eq_def]
    simp
  | cons c cs ih =>
    have h1 : escapeList (c :: cs) = escapeChar c ++ escapeList cs := by
      simp [escapeList]
    rw [h1, List.append_assoc, parseStringBody_escapeChar, ih]
    rfl

/-! ## Round-trip of the number layer -/

lemma digitChar_props (d : Nat) (h : d < 10) :
    (digitChar d).toNat = 48 + d ∧ (digitChar d).isDigit = true ∧
    isJsonWs (digitChar d) = false ∧ digitChar d ≠ '\x22' ∧
    digitChar d ≠ '[' ∧ digitChar d ≠ '\x7b' := by
  have : ∀ m : Fin 10,
      (digitChar m.val).toNat = 48 + m.val ∧ (digitChar m.val).isDigit = true ∧
      isJsonWs (digitChar m.val) = false ∧ digitChar m.val ≠ '\x22' ∧
      digitChar m.val ≠ '[' ∧ digitChar m.val ≠ '\x7b' := by decide
  exact this ⟨d, h⟩

lemma natDigitsAux_mem (fuel : Nat) :
    ∀ (n : Nat), ∀ c ∈ natDigitsAux fuel n, ∃ d, d < 10 ∧ c = digitChar d := by
  induction fuel with
  | zero => intro n c hc; simp [natDigitsAux] at hc
  | succ fuel ih =>
    intro n c hc
    cases n with
    | zero => simp [natDigitsAux] at hc
    | succ m =>
      rcases List.mem_cons.1 hc with rfl | hc
      · exact ⟨(m + 1) % 10, by omega, rfl⟩
      · exact ih _ c hc

lemma natDigitsAux_ne_nil (fuel n : Nat) (hf : 0 < fuel) (hn : 0 < n) :
    natDigitsAux fuel n ≠ [] := by
  cases fuel with
  | zero => omega
  | succ f =>
    cases n with
    | zero => omega
    | succ m => simp [natDigitsAux]

lemma renderNat_mem (n : Nat) : ∀ c ∈ renderNat n, ∃ d, d < 10 ∧ c = digitChar d := by
  intro c hc
  unfold renderNat at hc
  by_cases h : n = 0
  · rw [if_pos h] at hc
    rcases List.mem_singleton.1 hc with rfl
    exact ⟨0, by omega, rfl⟩
  · rw [if_neg h] at hc
    exact natDigitsAux_mem n n c (List.mem_reverse.1 hc)

lemma renderNat_ne_nil (n : Nat) : renderNat n ≠ [] := by
  unfold renderNat
  by_cases h : n = 0
  · simp [h]
  · rw [if_neg h]
    simp [natDigitsAux_ne_nil n n (by omega) (by omega)]

lemma digitsVal_append_singleton (l : List Char) (c : Char) :
    digitsVal (l ++ [c]) = 10 * digitsVal l + (c.toNat - 48) := by
  simp [digitsVal, List.foldl_append]

lemma natDigitsAux_val (fuel : Nat) :
    ∀ n : Nat, n ≤ fuel → digitsVal (natDigitsAux fuel n).reverse = n := by
  induction fuel with
  | zero => intro n hn; interval_cases n; rfl
  | succ fuel ih =>
    intro n hn
    cases n with
    | zero => rfl
    | succ m =>
      have hstep : natDigitsAux (fuel + 1) (m + 1) =
          digitChar ((m + 1) % 10) :: natDigitsAux fuel ((m + 1) / 10) := rfl
      rw [hstep, List.reverse_cons, digitsVal_append_singleton]
      rw [ih ((m + 1) / 10) (by omega)]
      have := (digitChar_props ((m + 1) % 10) (by omega)).1
      omega

lemma digitsVal_renderNat (n : Nat) : digitsVal (renderNat n) = n := by
  unfold renderNat
  by_cases h : n = 0
  · simp [h]; rfl
  · rw [if_neg h]
    exact natDigitsAux_val n n le_rfl

/-- The input after a rendered token must not continue with a digit. -/
def headNotDigit (cs : List Char) : Prop :=
  ∀ c, cs.head? = some c → c.isDigit = false

lemma takeWhile_append_all {p : Char → Bool} (l r : List Char)
    (hl : ∀ c ∈ l, p c = true)
    (hr : ∀ c, r.head? = some c → p c = false) :
    (l ++ r).takeWhile p = l ∧ (l ++ r).dropWhile p = r := by
  induction l with
  | nil =>
    cases r with
    | nil => exact ⟨rfl, rfl⟩
    | cons c rest =>
      simp only [List.nil_append, List.takeWhile_cons, List.dropWhile_cons]
      simp [hr c rfl]
  | cons a l ih =>
    have ha : p a = true := hl a (by simp)
    have := ih (fun c hc => hl c (by simp [hc]))
    simp [List.takeWhile_cons, List.dropWhile_cons, ha, this.1, this.2]

lemma parseNat_renderNat (n : Nat) (rest : List Char) (h : headNotDigit rest) :
    parseNat (renderNat n ++ rest) = some (n, rest) := by
  have hall : ∀ c ∈ renderNat n, c.isDigit = true := by
    intro c hc
    rcases renderNat_mem n c hc with ⟨d, hd, rfl⟩
    exact (digitChar_props d hd).2.1
  have := takeWhile_append_all (renderNat n) rest hall h
  unfold parseNat
  rw [this.1, this.2]
  rw [if_neg (by simp [List.isEmpty_iff, renderNat_ne_nil n])]
  rw [digitsVal_renderNat]

/-! ## Whitespace layer -/

lemma skipWs_replicate (k : Nat) (cs : List Char) :
    skipWs (nspaces k ++ cs) = skipWs cs := by
  induction k with
  | zero => rfl
  | succ k ih => simpa [nspaces, List.replicate_succ, skipWs] using ih

lemma skipWs_newline (cs : List Char) : skipWs ('\n' :: cs) = skipWs cs := rfl

lemma skipWs_not_ws {c : Char} (h : isJsonWs c = false) (cs : List Char) :
    skipWs (c :: cs) = c :: cs := by
  simp [skipWs, h]

lemma parseVal_congr (f : Nat) {cs cs' : List Char} (h : skipWs cs = skipWs cs') :
    parseVal f cs = parseVal f cs' := by
  cases f with
  | zero => rfl
  | succ f => rw [parseVal, parseVal, h]

lemma parseArrTail_congr (f : Nat) {cs cs' : List Char}
    (h : skipWs cs = skipWs cs') : parseArrTail f cs = parseArrTail f cs' := by
  cases f with
  | zero => rfl
  | succ f => rw [parseArrTail, parseArrTail, h]

lemma parseMember_congr (f : Nat) {cs cs' : List Char}
    (h : skipWs cs = skipWs cs') : parseMember f cs = parseMember f cs' := by
  cases f with
  | zero => rfl
  | succ f => rw [parseMember, parseMember, h]

lemma parseObjTail_congr (f : Nat) {cs cs' : List Char}
    (h : skipWs cs = skipWs cs') : parseObjTail f cs = parseObjTail f cs' := by
  cases f with
  | zero => rfl
  | succ f => rw [parseObjTail, parseObjTail, h]

lemma parseVal_succ (f : Nat) (cs : List Char) (c : Char) (rest : List Char)
    (h : skipWs cs = c :: rest) :
    parseVal (f + 1) cs =
      (if c = '\x22' then
        (parseStringBody rest).map (fun p => (Json.str (String.mk p.1), p.2))
      else if c = '[' then
        if (skipWs rest).head? = some ']' then some (Json.arr [], (skipWs rest).tail)
        else
          match parseVal f rest with
          | none => none
          | some (v, rest2) =>
            match parseArrTail f rest2 with
            | none => none
            | some (vs, rest3) => some (Json.arr (v :: vs), rest3)
      else if c = '\x7b' then
        if (skipWs rest).head? = some '\x7d' then some (Json.obj [], (skipWs rest).tail)
        else
          match parseMember f rest with
          | none => none
          | some (m, rest2) =>
            match parseObjTail f rest2 with
            | none => none
            | some (ms, rest3) => some (Json.obj (m :: ms), rest3)
      else
        (parseNat (c :: rest)).map (fun p => (Json.num p.1, p.2))) := by
  rw [parseVal, h]

lemma parseArrTail_succ (f : Nat) (cs : List Char) (c : Char) (rest : List Char)
    (h : skipWs cs = c :: rest) :
    parseArrTail (f + 1) cs =
      (if c = ']' then some ([], rest)
      else if c = ',' then
        match parseVal f rest with
        | none => none
        | some (v, rest2) =>
          match parseArrTail f rest2 with
          | none => none
          | some (vs, rest3) => some (v :: vs, rest3)
      else none) := by
  rw [parseArrTail, h]

lemma parseMember_succ (f : Nat) (cs : List Char) (c : Char) (rest : List Char)
    (h : skipWs cs = c :: rest) :
    parseMember (f + 1) cs =
      (if c = '\x22' then
        match parseStringBody rest with
        | none => none
        | some (k, rest2) =>
          if (skipWs rest2).head? = some ':' then
            match parseVal f (skipWs rest2).tail with
            | none => none
            | some (v, rest4) => some ((String.mk k, v), rest4)
          else none
      else none) := by
  rw [parseMember, h]

lemma parseObjTail_succ (f : Nat) (cs : List Char) (c : Char) (rest : List Char)
    (h : skipWs cs = c :: rest) :
    parseObjTail (f + 1) cs =
      (if c = '\x7d' then some ([], rest)
      else if c = ',' then
        match parseMember f rest with
        | none => none
        | some (m, rest2) =>
          match parseObjTail f rest2 with
          | none => none
          | some (ms, rest3) => some (m :: ms, rest3)
      else none) := by
  rw [parseObjTail, h]

/-! ## The first character of a rendered value -/

/-- Characters that can begin a rendered JSON value. -/
def isOpenChar (c : Char) : Prop :=
  c = '\x22' ∨ c = '[' ∨ c = '\x7b' ∨ ∃ d, d < 10 ∧ c = digitChar d

lemma isOpenChar_props (c : Char) (h : isOpenChar c) :
    isJsonWs c = false ∧ c ≠ ']' ∧ c ≠ '\x7d' ∧ c ≠ ',' := by
  have hfin : ∀ m : Fin 10,
      isJsonWs (digitChar m.val) = false ∧ digitChar m.val ≠ ']' ∧
      digitChar m.val ≠ '\x7d' ∧ digitChar m.val ≠ ',' := by decide
  rcases h with rfl | rfl | rfl | ⟨d, hd, rfl⟩
  · exact ⟨rfl, by decide, by decide, by decide⟩
  · exact ⟨rfl, by decide, by decide, by decide⟩
  · exact ⟨rfl, by decide, by decide, by decide⟩
  · exact hfin ⟨d, hd⟩

lemma renderNat_head (n : Nat) :
    ∃ c tl, renderNat n = c :: tl ∧ ∃ d, d < 10 ∧ c = digitChar d := by
  cases hr : renderNat n with
  | nil => exact absurd hr (renderNat_ne_nil n)
  | cons c tl =>
    refine ⟨c, tl, rfl, renderNat_mem n c ?_⟩
    rw [hr]
    simp

lemma renderVal_head (l : Nat) (v : Json) :
    ∃ c tl, renderVal l v = c :: tl ∧ isOpenChar c := by
  cases v with
  | num n =>
    obtain ⟨c, tl, hr, hd⟩ := renderNat_head n
    exact ⟨c, tl, by rw [renderVal, hr], Or.inr (Or.inr (Or.inr hd))⟩
  | str s =>
    exact ⟨'\x22', escapeList s.data ++ ['\x22'],
      by rw [renderVal, renderString], Or.inl rfl⟩
  | arr vs =>
    cases vs with
    | nil => exact ⟨'[', [']'], by rw [renderVal], Or.inr (Or.inl rfl)⟩
    | cons v vs =>
      refine ⟨'[', '\n' :: (nspaces (2 * (l + 1)) ++ renderVal (l + 1) v
        ++ renderArrTail (l + 1) vs ++ '\n' :: (nspaces (2 * l) ++ [']'])),
        ?_, Or.inr (Or.inl rfl)⟩
      rw [renderVal]
  | obj ms =>
    cases ms with
    | nil =>
      exact ⟨'\x7b', ['\x7d'], by rw [renderVal], Or.inr (Or.inr (Or.inl rfl))⟩
    | cons m ms =>
      refine ⟨'\x7b', '\n' :: (nspaces (2 * (l + 1)) ++ renderMember (l + 1) m
        ++ renderObjTail (l + 1) ms ++ '\n' :: (nspaces (2 * l) ++ ['\x7d'])),
        ?_, Or.inr (Or.inr (Or.inl rfl))⟩
      rw [renderVal]

lemma skipWs_render (l : Nat) (v : Json) (x : List Char) :
    skipWs (renderVal l v ++ x) = renderVal l v ++ x := by
  obtain ⟨c, tl, hr, hc⟩ := renderVal_head l v
  rw [hr, List.cons_append, skipWs_not_ws (isOpenChar_props c hc).1]

lemma skipWs_renderMember (l : Nat) (m : String × Json) (x : List Char) :
    skipWs (renderMember l m ++ x) = renderMember l m ++ x := by
  obtain ⟨k, v⟩ := m
  rw [renderMember, renderString]
  simp only [List.cons_append, List.append_assoc]
  rw [skipWs_not_ws (by decide : isJsonWs '\x22' = false)]

lemma renderMember_head (l : Nat) (m : String × Json) (x : List Char) :
    (renderMember l m ++ x).head? = some '\x22' := by
  obtain ⟨k, v⟩ := m
  rw [renderMember, renderString]
  simp

/-! ## Fuel adequate for parsing a rendered value -/

mutual
/-- Fuel consumed by `parseVal` on a rendered value. -/
def jsonFuel : Json → Nat
  | .num _ => 1
  | .str _ => 1
  | .arr [] => 1
  | .arr (v :: vs) => 1 + jsonFuel v + listFuel vs
  | .obj [] => 1
  | .obj (m :: ms) => 1 + memberFuel m + membersFuel ms

/-- Fuel consumed by `parseArrTail` on a rendered array tail. -/
def listFuel : List Json → Nat
  | [] => 1
  | v :: vs => 1 + jsonFuel v + listFuel vs

/-- Fuel consumed by `parseMember` on a rendered member. -/
def memberFuel : String × Json → Nat
  | (_, v) => 1 + jsonFuel v

/-- Fuel consumed by `parseObjTail` on a rendered object tail. -/
def membersFuel : List (String × Json) → Nat
  | [] => 1
  | m :: ms => 1 + memberFuel m + membersFuel ms
end

lemma jsonFuel_pos (v : Json) : 1 ≤ jsonFuel v := by
  cases v with
  | num n => exact le_refl 1
  | str s => exact le_refl 1
  | arr vs => cases vs <;> simp only [jsonFuel] <;> omega
  | obj ms => cases ms <;> simp only [jsonFuel] <;> omega

lemma listFuel_pos (vs : List Json) : 1 ≤ listFuel vs := by
  cases vs <;> simp only [listFuel] <;> omega

lemma memberFuel_pos (m : String × Json) : 1 ≤ memberFuel m := by
  cases m; simp [memberFuel]

lemma membersFuel_pos (ms : List (String × Json)) : 1 ≤ membersFuel ms := by
  cases ms <;> simp only [membersFuel] <;> omega

/-! ## Parsing a rendered document recovers the value -/

lemma headNotDigit_cons {c : Char} (h : c.isDigit = false) (cs : List Char) :
    headNotDigit (c :: cs) := by
  intro x hx
  simp only [List.head?_cons, Option.some_inj] at hx
  rw [← hx]
  exact h

lemma headNotDigit_arrTail (l : Nat) (vs : List Json) (x : List Char) :
    headNotDigit (renderArrTail l vs ++ '\n' :: x) := by
  cases vs with
  | nil =>
    rw [renderArrTail, List.nil_append]
    exact headNotDigit_cons (by decide) x
  | cons v vs =>
    rw [renderArrTail, List.cons_append]
    exact headNotDigit_cons (by decide) _

lemma headNotDigit_objTail (l : Nat) (ms : List (String × Json)) (x : List Char) :
    headNotDigit (renderObjTail l ms ++ '\n' :: x) := by
  cases ms with
  | nil =>
    rw [renderObjTail, List.nil_append]
    exact headNotDigit_cons (by decide) x
  | cons m ms =>
    rw [renderObjTail, List.cons_append]
    exact headNotDigit_cons (by decide) _

mutual

theorem parse_render_val (f l : Nat) (v : Json) (rest : List Char)
    (hrest : headNotDigit rest) (hf : jsonFuel v ≤ f + 1) :
    parseVal (f + 1) (renderVal l v ++ rest) = some (v, rest) := by
  cases v with
  | num n =>
    obtain ⟨c, tl, hr, d, hd, rfl⟩ := renderNat_head n
    have hp := digitChar_props d hd
    rw [renderVal, hr, List.cons_append,
      parseVal_succ f _ _ _ (skipWs_not_ws hp.2.2.1 _),
      if_neg hp.2.2.2.1, if_neg hp.2.2.2.2.1, if_neg hp.2.2.2.2.2,
      show digitChar d :: (tl ++ rest) = renderNat n ++ rest by
        rw [hr, List.cons_append],
      parseNat_renderNat n rest hrest]
    rfl
  | str s =>
    rw [renderVal, renderString, List.cons_append,
      parseVal_succ f _ _ _ (skipWs_not_ws (by decide) _),
      if_pos rfl, List.append_assoc, List.singleton_append,
      parseStringBody_escapeList]
    rfl
  | arr vs =>
    cases vs with
    | nil =>
      rw [renderVal]
      simp only [List.cons_append, List.nil_append]
      rw [parseVal_succ f _ _ _ (skipWs_not_ws (by decide) _),
        if_neg (by decide), if_pos rfl,
        skipWs_not_ws (by decide : isJsonWs ']' = false)]
      rw [if_pos (show ((']' :: rest).head? = some ']') from rfl)]
      rfl
    | cons v vs =>
      have hfv : jsonFuel v ≤ f := by
        rw [jsonFuel] at hf
        have := listFuel_pos vs
        omega
      have hfvs : listFuel vs ≤ f := by
        rw [jsonFuel] at hf
        have := jsonFuel_pos v
        omega
      obtain ⟨c, tl, hR, hc⟩ := renderVal_head (l + 1) v
      have hp := isOpenChar_props c hc
      rw [renderVal]
      simp only [List.cons_append, List.append_assoc, List.singleton_append,
        List.nil_append]
      rw [parseVal_succ f _ _ _ (skipWs_not_ws (by decide) _),
        if_neg (by decide), if_pos rfl]
      have hskip : skipWs ('\n' :: (nspaces (2 * (l + 1)) ++ (renderVal (l + 1) v ++
          (renderArrTail (l + 1) vs ++ '\n' :: (nspaces (2 * l) ++ ']' :: rest))))) =
          renderVal (l + 1) v ++
            (renderArrTail (l + 1) vs ++ '\n' :: (nspaces (2 * l) ++ ']' :: rest)) := by
        rw [skipWs_newline, skipWs_replicate, skipWs_render]
      rw [hskip]
      have hhead : (renderVal (l + 1) v ++
          (renderArrTail (l + 1) vs ++ '\n' :: (nspaces (2 * l) ++ ']' :: rest))).head?
          = some c := by
        rw [hR]
        simp
      rw [if_neg (by
        rw [hhead]
        intro hcon
        exact hp.2.1 (Option.some_inj.1 hcon))]
      have hv : parseVal f ('\n' :: (nspaces (2 * (l + 1)) ++ (renderVal (l + 1) v ++
          (renderArrTail (l + 1) vs ++ '\n' :: (nspaces (2 * l) ++ ']' :: rest))))) =
          some (v, renderArrTail (l + 1) vs ++
            '\n' :: (nspaces (2 * l) ++ ']' :: rest)) := by
        rw [parseVal_congr f (by rw [hskip, skipWs_render] :
          skipWs _ = skipWs (renderVal (l + 1) v ++
            (renderArrTail (l + 1) vs ++ '\n' :: (nspaces (2 * l) ++ ']' :: rest))))]
        cases f with
        | zero =>
          have := jsonFuel_pos v
          omega
        | succ f2 =>
          exact parse_render_val f2 (l + 1) v _
            (headNotDigit_arrTail (l + 1) vs _) (by omega)
      simp only [hv]
      have ht : parseArrTail f (renderArrTail (l + 1) vs ++
          '\n' :: (nspaces (2 * l) ++ ']' :: rest)) = some (vs, rest) := by
        cases f with
        | zero =>
          have := listFuel_pos vs
          omega
        | succ f2 =>
          exact parse_render_arrTail f2 (l + 1) (2 * l) vs rest (by omega)
      simp only [ht]
  | obj ms =>
    cases ms with
    | nil =>
      rw [renderVal]
      simp only [List.cons_append, List.nil_append]
      rw [parseVal_succ f _ _ _ (skipWs_not_ws (by decide) _),
        if_neg (by decide), if_neg (by decide), if_pos rfl,
        skipWs_not_ws (by decide : isJsonWs '\x7d' = false)]
      rw [if_pos (show (('\x7d' :: rest).head? = some '\x7d') from rfl)]
      rfl
    | cons m ms =>
      have hfm : memberFuel m ≤ f := by
        rw [jsonFuel] at hf
        have := membersFuel_pos ms
        omega
      have hfms : membersFuel ms ≤ f := by
        rw [jsonFuel] at hf
        have := memberFuel_pos m
        omega
      rw [renderVal]
      simp only [List.cons_append, List.append_assoc, List.singleton_append,
        List.nil_append]
      rw [parseVal_succ f _ _ _ (skipWs_not_ws (by decide) _),
        if_neg (by decide), if_neg (by decide), if_pos rfl]
      have hskip : skipWs ('\n' :: (nspaces (2 * (l + 1)) ++ (renderMember (l + 1) m ++
          (renderObjTail (l + 1) ms ++ '\n' :: (nspaces (2 * l) ++ '\x7d' :: rest))))) =
          renderMember (l + 1) m ++
            (renderObjTail (l + 1) ms ++ '\n' :: (nspaces (2 * l) ++ '\x7d' :: rest)) := by
        rw [skipWs_newline, skipWs_replicate, skipWs_renderMember]
      rw [hskip]
      rw [if_neg (by
        rw [renderMember_head]
        intro hcon
        exact absurd (Option.some_inj.1 hcon) (by decide))]
      have hm : parseMember f ('\n' :: (nspaces (2 * (l + 1)) ++ (renderMember (l + 1) m ++
          (renderObjTail (l + 1) ms ++ '\n' :: (nspaces (2 * l) ++ '\x7d' :: rest))))) =
          some (m, renderObjTail (l + 1) ms ++
            '\n' :: (nspaces (2 * l) ++ '\x7d' :: rest)) := by
        rw [parseMember_congr f (by rw [hskip, skipWs_renderMember] :
          skipWs _ = skipWs (renderMember (l + 1) m ++
            (renderObjTail (l + 1) ms ++ '\n' :: (nspaces (2 * l) ++ '\x7d' :: rest))))]
        obtain ⟨mk, mv⟩ := m
        cases f with
        | zero =>
          have := jsonFuel_pos mv
          rw [memberFuel] at hfm
          omega
        | succ f2 =>
          exact parse_render_member f2 (l + 1) mk mv _
            (headNotDigit_objTail (l + 1) ms _) (by omega)
      simp only [hm]
      have ht : parseObjTail f (renderObjTail (l + 1) ms ++
          '\n' :: (nspaces (2 * l) ++ '\x7d' :: rest)) = some (ms, rest) := by
        cases f with
        | zero =>
          have := membersFuel_pos ms
          omega
        | succ f2 =>
          exact parse_render_objTail f2 (l + 1) (2 * l) ms rest (by omega)
      simp only [ht]

theorem parse_render_arrTail (f l k : Nat) (vs : List Json) (rest : List Char)
    (hf : listFuel vs ≤ f + 1) :
    parseArrTail (f + 1) (renderArrTail l vs ++
      '\n' :: (nspaces k ++ ']' :: rest)) = some (vs, rest) := by
  cases vs with
  | nil =>
    rw [renderArrTail, List.nil_append,
      parseArrTail_succ f _ _ _ (by
        rw [skipWs_newline, skipWs_replicate,
          skipWs_not_ws (by decide : isJsonWs ']' = false)])]
    rw [if_pos rfl]
  | cons v vs =>
    have hfv : jsonFuel v ≤ f := by
      rw [listFuel] at hf
      have := listFuel_pos vs
      omega
    have hfvs : listFuel vs ≤ f := by
      rw [listFuel] at hf
      have := jsonFuel_pos v
      omega
    rw [renderArrTail]
    simp only [List.cons_append, List.append_assoc, List.singleton_append,
      List.nil_append]
    rw [parseArrTail_succ f _ _ _ (skipWs_not_ws (by decide) _),
      if_neg (by decide), if_pos rfl]
    have hv : parseVal f ('\n' :: (nspaces (2 * l) ++ (renderVal l v ++
        (renderArrTail l vs ++ '\n' :: (nspaces k ++ ']' :: rest))))) =
        some (v, renderArrTail l vs ++ '\n' :: (nspaces k ++ ']' :: rest)) := by
      rw [parseVal_congr f (by
        rw [skipWs_newline, skipWs_replicate, skipWs_render] :
        skipWs _ = skipWs (renderVal l v ++
          (renderArrTail l vs ++ '\n' :: (nspaces k ++ ']' :: rest))))]
      cases f with
      | zero =>
        have := jsonFuel_pos v
        omega
      | succ f2 =>
        exact parse_render_val f2 l v _ (headNotDigit_arrTail l vs _) (by omega)
    simp only [hv]
    have ht : parseArrTail f (renderArrTail l vs ++
        '\n' :: (nspaces k ++ ']' :: rest)) = some (vs, rest) := by
      cases f with
      | zero =>
        have := listFuel_pos vs
        omega
      | succ f2 =>
        exact parse_render_arrTail f2 l k vs rest (by omega)
    simp only [ht]

theorem parse_render_member (f l : Nat) (mk : String) (mv : Json) (rest : List Char)
    (hrest : headNotDigit rest) (hf : memberFuel (mk, mv) ≤ f + 1) :
    parseMember (f + 1) (renderMember l (mk, mv) ++ rest) = some ((mk, mv), rest) := by
  have hfv : jsonFuel mv ≤ f := by
    rw [memberFuel] at hf
    omega
  rw [renderMember, renderString]
  simp only [List.cons_append, List.append_assoc, List.singleton_append,
        List.nil_append]
  rw [parseMember_succ f _ _ _ (skipWs_not_ws (by decide) _), if_pos rfl]
  simp only [parseStringBody_escapeList]
  rw [skipWs_not_ws (by decide : isJsonWs ':' = false)]
  rw [if_pos (show ((':' :: ' ' :: (renderVal l mv ++ rest)).head? = some ':') from rfl)]
  simp only [List.tail_cons]
  have hv : parseVal f (' ' :: (renderVal l mv ++ rest)) = some (mv, rest) := by
    rw [parseVal_congr f
      (rfl : skipWs (' ' :: (renderVal l mv ++ rest)) =
        skipWs (renderVal l mv ++ rest))]
    cases f with
    | zero =>
      have := jsonFuel_pos mv
      omega
    | succ f2 =>
      exact parse_render_val f2 l mv rest hrest (by omega)
  simp only [hv]

theorem parse_render_objTail (f l k : Nat) (ms : List (String × Json))
    (rest : List Char) (hf : membersFuel ms ≤ f + 1) :
    parseObjTail (f + 1) (renderObjTail l ms ++
      '\n' :: (nspaces k ++ '\x7d' :: rest)) = some (ms, rest) := by
  cases ms with
  | nil =>
    rw [renderObjTail, List.nil_append,
      parseObjTail_succ f _ _ _ (by
        rw [skipWs_newline, skipWs_replicate,
          skipWs_not_ws (by decide : isJsonWs '\x7d' = false)])]
    rw [if_pos rfl]
  | cons m ms =>
    have hfm : memberFuel m ≤ f := by
      rw [membersFuel] at hf
      have := membersFuel_pos ms
      omega
    have hfms : membersFuel ms ≤ f := by
      rw [membersFuel] at hf
      have := memberFuel_pos m
      omega
    rw [renderObjTail]
    simp only [List.cons_append, List.append_assoc, List.singleton_append,
      List.nil_append]
    rw [parseObjTail_succ f _ _ _ (skipWs_not_ws (by decide) _),
      if_neg (by decide), if_pos rfl]
    have hm : parseMember f ('\n' :: (nspaces (2 * l) ++ (renderMember l m ++
        (renderObjTail l ms ++ '\n' :: (nspaces k ++ '\x7d' :: rest))))) =
        some (m, renderObjTail l ms ++ '\n' :: (nspaces k ++ '\x7d' :: rest)) := by
      rw [parseMember_congr f (by
        rw [skipWs_newline, skipWs_replicate, skipWs_renderMember] :
        skipWs _ = skipWs (renderMember l m ++
          (renderObjTail l ms ++ '\n' :: (nspaces k ++ '\x7d' :: rest))))]
      obtain ⟨mk, mv⟩ := m
      cases f with
      | zero =>
        have := jsonFuel_pos mv
        rw [memberFuel] at hfm
        omega
      | succ f2 =>
        exact parse_render_member f2 l mk mv _
          (headNotDigit_objTail l ms _) (by omega)
    simp only [hm]
    have ht : parseObjTail f (renderObjTail l ms ++
        '\n' :: (nspaces k ++ '\x7d' :: rest)) = some (ms, rest) := by
      cases f with
      | zero =>
        have := membersFuel_pos ms
        omega
      | succ f2 =>
        exact parse_render_objTail f2 l k ms rest (by omega)
    simp only [ht]

end

mutual

theorem jsonFuel_le_len (l : Nat) (v : Json) :
    jsonFuel v ≤ (renderVal l v).length + 1 := by
  cases v with
  | num n => rw [jsonFuel]; omega
  | str s => rw [jsonFuel]; omega
  | arr vs =>
    cases vs with
    | nil => rw [jsonFuel]; omega
    | cons v vs =>
      have h1 := jsonFuel_le_len (l + 1) v
      have h2 := listFuel_le_len (l + 1) vs
      rw [jsonFuel, renderVal]
      simp only [List.length_cons, List.length_append]
      omega
  | obj ms =>
    cases ms with
    | nil => rw [jsonFuel]; omega
    | cons m ms =>
      have h1 := memberFuel_le_len (l + 1) m
      have h2 := membersFuel_le_len (l + 1) ms
      rw [jsonFuel, renderVal]
      simp only [List.length_cons, List.length_append]
      omega

theorem listFuel_le_len (l : Nat) (vs : List Json) :
    listFuel vs ≤ (renderArrTail l vs).length + 2 := by
  cases vs with
  | nil => rw [listFuel]; omega
  | cons v vs =>
    have h1 := jsonFuel_le_len l v
    have h2 := listFuel_le_len l vs
    rw [listFuel, renderArrTail]
    simp only [List.length_cons, List.length_append]
    omega

theorem memberFuel_le_len (l : Nat) (m : String × Json) :
    memberFuel m ≤ (renderMember l m).length + 1 := by
  obtain ⟨k, v⟩ := m
  have h1 := jsonFuel_le_len l v
  rw [memberFuel, renderMember]
  simp only [List.length_append, List.length_cons]
  omega

theorem membersFuel_le_len (l : Nat) (ms : List (String × Json)) :
    membersFuel ms ≤ (renderObjTail l ms).length + 2 := by
  cases ms with
  | nil => rw [membersFuel]; omega
  | cons m ms =>
    have h1 := memberFuel_le_len l m
    have h2 := membersFuel_le_len l ms
    rw [membersFuel, renderObjTail]
    simp only [List.length_cons, List.length_append]
    omega

end

lemma headNotDigit_nil : headNotDigit [] := by
  intro c hc
  simp at hc

theorem parseJson_renderJson (v : Json) : parseJson (renderJson v) = some v := by
  unfold parseJson renderJson
  have hd : (String.mk (renderVal 0 v)).data = renderVal 0 v := rfl
  rw [hd]
  have h := parse_render_val (renderVal 0 v).length 0 v [] headNotDigit_nil
    (by have := jsonFuel_le_len 0 v; omega)
  rw [List.append_nil] at h
  rw [h]
  rfl

lemma decodeRow_encodeRow (r : ExtractedRow) : decodeRow (encodeRow r) = some r := by
  obtain ⟨n, raw, en, ar, idv⟩ := r
  cases en <;> cases ar <;> cases idv <;> rfl

lemma decodeList_encode (rs : List ExtractedRow) :
    decodeList (rs.map encodeRow) = some rs := by
  induction rs with
  | nil => rfl
  | cons r rs ih => simp [decodeList, decodeRow_encodeRow, ih]

lemma decodeRecords_encodeRecords (rs : List ExtractedRow) :
    decodeRecords (encodeRecords rs) = some rs := by
  rw [encodeRecords]
  rw [show decodeRecords (Json.arr (rs.map encodeRow)) =
    decodeList (rs.map encodeRow) from rfl]
  exact decodeList_encode rs

/-- Sample record used by concrete witnesses. -/
def sampleRow : ExtractedRow :=
  { row_number := 1, raw_content := "Cat\tقطة\t001",
    english_name := some "Cat", arabic_name := some "قطة", id := some "001" }

/-- C8: serialization round-trips: parsing the JSON text written to the
output file yields exactly the encoded record sequence, decoding it
recovers the in-memory records, and every non-ASCII character is written
unescaped. -/
theorem json_output_roundtrips (rs : List ExtractedRow) :
    parseJson (renderJson (encodeRecords rs)) = some (encodeRecords rs) ∧
    decodeRecords (encodeRecords rs) = some rs ∧
    ∀ c : Char, 128 ≤ c.toNat → escapeChar c = [c] := by
  refine ⟨parseJson_renderJson _, decodeRecords_encodeRecords rs, fun c hc => ?_⟩
  unfold escapeChar
  split_ifs with h1 h2 h3 h4 h5 h6 h7 h8
  · subst h1; exact absurd hc (by decide)
  · subst h2; exact absurd hc (by decide)
  · subst h3; exact absurd hc (by decide)
  · subst h4; exact absurd hc (by decide)
  · subst h5; exact absurd hc (by decide)
  · subst h6; exact absurd hc (by decide)
  · subst h7; exact absurd hc (by decide)
  · exact absurd hc (by omega)
  · rfl

/-- Witness for C8 at a one-record list with Arabic text. -/
theorem json_output_roundtrips_witness :
    parseJson (renderJson (encodeRecords [sampleRow])) =
      some (encodeRecords [sampleRow]) ∧
    escapeChar 'ق' = ['ق'] :=
  ⟨(json_output_roundtrips [sampleRow]).1,
   (json_output_roundtrips [sampleRow]).2.2 'ق' (by decide)⟩

/-- C5: whatever the clipboard source, the interrupted run still writes a
file whose JSON text parses back to exactly the records collected so far;
interrupting after 2 completed iterations of 5 planned saves exactly the 2
records of iterations 1 and 2. -/
theorem interrupt_still_saves (c : Nat → String) :
    (∀ n k : Nat,
      parseJson (fileAtInterrupt c n k) =
        some (encodeRecords (recordsAtInterrupt c n k)) ∧
      decodeRecords (encodeRecords (recordsAtInterrupt c n k)) =
        some (recordsAtInterrupt c n k)) ∧
    recordsAtInterrupt c 5 2 = extractLoop c 2 ∧
    ((∀ i, i < 2 → c i ≠ "") → (recordsAtInterrupt c 5 2).length = 2) := by
  refine ⟨fun n k => ⟨parseJson_renderJson _, decodeRecords_encodeRecords _⟩, rfl, ?_⟩
  intro h
  have h0 : c 0 ≠ "" := h 0 (by omega)
  have h1 : c 1 ≠ "" := h 1 (by omega)
  have hmin : recordsAtInterrupt c 5 2 = extractLoop c 2 := rfl
  rw [hmin, extractLoop_eq]
  rw [show List.range 2 = [0, 1] from rfl]
  simp [List.filterMap_cons, rowAt, h0, h1]

/-- Witness for C5 with a constant non-empty clipboard. -/
theorem interrupt_still_saves_witness :
    parseJson (fileAtInterrupt (fun _ => "a\tb") 5 2) =
      some (encodeRecords (recordsAtInterrupt (fun _ => "a\tb") 5 2)) ∧
    (recordsAtInterrupt (fun _ => "a\tb") 5 2).length = 2 :=
  ⟨((interrupt_still_saves (fun _ => "a\tb")).1 5 2).1,
   (interrupt_still_saves (fun _ => "a\tb")).2.2 (by intro i _; decide)⟩

end DataExtractor
